import Mathlib

/-!
Shallow embedding of the price-resolution and valuation core of the
Portfolio-manager repository (files `app/services.py` and `app/models.py`).

Network-facing calls are modelled by explicit environment functions:
* `yf : String → Option ℚ` — the best-effort "last price" oracle for a Yahoo
  ticker (`fast_info['last_price']` falling back to the last daily close);
  `none` models both an empty response and a raised provider error.
* `yfCurrency : String → Option String` — `fast_info['currency']` per ticker.
* `cgSym`, `cgName` — the CoinGecko symbol→id and name→id cache maps.
* `cgPrice : String → String → Option ℚ` — the CoinGecko simple-price
  endpoint, keyed by (id, lower-cased vs_currency).

Python exceptions are modelled with `Except Err`; an unbounded recursion
(`fx_rate` can recurse forever on some pairs) is modelled with explicit fuel,
where running out of fuel yields `none` like any other failure.
Prices are modelled as exact rationals `ℚ`.
-/

attribute [local semireducible] Rat.mul Rat.add Rat.sub Rat.inv

deriving instance DecidableEq for Except

namespace PortfolioManager

/-- ASCII upper-casing (Python `str.upper` for the data handled here),
written over the character list so that it evaluates inside the kernel. -/
def strUpper (s : String) : String := ⟨s.data.map Char.toUpper⟩

/-- ASCII lower-casing (Python `str.lower` for the data handled here). -/
def strLower (s : String) : String := ⟨s.data.map Char.toLower⟩

/-- Whitespace stripping at both ends (Python `str.strip`). -/
def strTrim (s : String) : String :=
  ⟨((s.data.dropWhile Char.isWhitespace).reverse.dropWhile Char.isWhitespace).reverse⟩

/-- Character containment (Python `c in s` for a one-character needle). -/
def strContains (s : String) (c : Char) : Bool := s.data.contains c

/-- Suffix test (Python `str.endswith`). -/
def strEndsWith (s suffix : String) : Bool := suffix.data.isSuffixOf s.data

/-- Typed counterpart of the exceptions raised in `app/services.py`. -/
inductive Err where
  /-- Python ValueError("Empty crypto identifier") in `_cg_normalize_id`. -/
  | emptyCryptoId : Err
  /-- Python ValueError("Unknown crypto symbol/name/id: ...") in `_cg_normalize_id`. -/
  | unknownAsset (s : String) : Err
  /-- Python RuntimeError("Price unavailable for ...") in `fetch_crypto_price_by_id`. -/
  | priceUnavailable (orig resolved target : String) : Err
  /-- Python ValueError("coingecko source requires source_ref ...") in `fetch_spot_by_source`. -/
  | invalidRequest : Err
  /-- Python RuntimeError("Manual source not implemented yet ...") in `fetch_spot_by_source`. -/
  | manualNotImplemented : Err
  /-- Python ValueError("Unsupported source: ...") in `fetch_spot_by_source`. -/
  | unsupportedSource (src : String) : Err
  /-- Python RuntimeError("FX price unavailable for pair ...") raised inside `fx_rate`
  (also stands for the non-termination of `fx_rate`, via fuel exhaustion). -/
  | fxUnavailable (base quote : String) : Err
  /-- Python RuntimeError("No price history for ...") in `fetch_equity_price`. -/
  | noHistory (symbol : String) : Err
  /-- Python RuntimeError("Silver price unavailable") in `fetch_spot_by_source`. -/
  | silverUnavailable : Err
deriving DecidableEq, Repr

/-- The `_YF_FX_TICKER` direct-pair table of `services.py`. -/
def yfFxTicker (base quote : String) : Option String :=
  if base = "USD" ∧ quote = "GBP" then some "USDGBP=X"
  else if base = "GBP" ∧ quote = "USD" then some "GBPUSD=X"
  else if base = "EUR" ∧ quote = "GBP" then some "EURGBP=X"
  else if base = "GBP" ∧ quote = "EUR" then some "GBPEUR=X"
  else if base = "USD" ∧ quote = "EUR" then some "USDEUR=X"
  else if base = "EUR" ∧ quote = "USD" then some "EURUSD=X"
  else none

/-- The intermediate-currency choice of `fx_rate`:
`via = "USD" if base != "USD" and quote != "USD" else ("EUR" if base != "EUR" and quote != "EUR" else "GBP")`. -/
def viaOf (base quote : String) : String :=
  if base ≠ "USD" ∧ quote ≠ "USD" then "USD"
  else if base ≠ "EUR" ∧ quote ≠ "EUR" then "EUR"
  else "GBP"

/-- Embedding of `fx_rate(base, quote)` of `services.py`, with the yfinance last-price oracle
`yf` and explicit recursion fuel.  `none` models a raised
`RuntimeError("FX price unavailable ...")`, a missing quote, or a recursion
that never terminates (fuel exhaustion: triangulation consumes one unit). -/
def fxRate (yf : String → Option ℚ) : Nat → String → String → Option ℚ
  | fuel, base, quote =>
    let b := strUpper base
    let q := strUpper quote
    if b = q then some 1
    else
      match yfFxTicker b q with
      | some tkr => yf tkr
      | none =>
        match fuel with
        | 0 => none
        | Nat.succ n =>
          match fxRate yf n b (viaOf b q), fxRate yf n (viaOf b q) q with
          | some r1, some r2 => some (r1 * r2)
          | _, _ => none

/-- Embedding of `_cg_normalize_id` of `services.py`: accept a raw id directly when already
lowercase without spaces, otherwise consult the cached symbol→id and
name→id maps. -/
def cgNormalizeId (symMap nameMap : String → Option String) (input : String) :
    Except Err String :=
  let s := strTrim input
  if s = "" then .error .emptyCryptoId
  else if strLower s = s ∧ ¬ strContains s ' ' then .ok (strLower s)
  else
    match symMap (strUpper s) with
    | some cid => .ok cid
    | none =>
      match nameMap (strLower s) with
      | some cid => .ok cid
      | none => .error (.unknownAsset s)

/-- One entry of the CoinGecko `/coins/list` catalogue; `none` models a JSON
field that is absent (Python `dict.get` returning `None`). -/
structure Coin where
  id : Option String
  symbol : Option String
  name : Option String
deriving DecidableEq, Repr

/-- Conditional insertion into a map modelled as a lookup function. -/
def mapInsert (m : String → Option String) (k v : String) : String → Option String :=
  fun x => if x = k then some v else m x

/-- One iteration of the catalogue loop in `_refresh_cg_index_if_needed`:
`if cid: if sym and sym not in sym_map: ... ; if name and name not in name_map: ...`. -/
def cgIndexStep (maps : (String → Option String) × (String → Option String))
    (c : Coin) : (String → Option String) × (String → Option String) :=
  let cid := strLower (c.id.getD "")
  let sym := strUpper (c.symbol.getD "")
  let nm := strLower (c.name.getD "")
  let s1 := if cid ≠ "" ∧ sym ≠ "" ∧ (maps.1 sym).isNone then
      mapInsert maps.1 sym cid else maps.1
  let s2 := if cid ≠ "" ∧ nm ≠ "" ∧ (maps.2 nm).isNone then
      mapInsert maps.2 nm cid else maps.2
  (s1, s2)

/-- The map-building loop of `_refresh_cg_index_if_needed`: fold over the
catalogue, keeping the first id seen per (uppercased) symbol and per
(lowercased) name, skipping entries whose id normalizes to the empty string. -/
def buildCgIndex (coins : List Coin) :
    (String → Option String) × (String → Option String) :=
  coins.foldl cgIndexStep (fun _ => none, fun _ => none)

/-- The (symbol-key, id) contribution of one catalogue entry at key `k`. -/
def symEntryOf (c : Coin) (k : String) : Option String :=
  let cid := strLower (c.id.getD "")
  let sym := strUpper (c.symbol.getD "")
  if cid ≠ "" ∧ sym ≠ "" ∧ sym = k then some cid else none

/-- The (name-key, id) contribution of one catalogue entry at key `k`. -/
def nameEntryOf (c : Coin) (k : String) : Option String :=
  let cid := strLower (c.id.getD "")
  let nm := strLower (c.name.getD "")
  if cid ≠ "" ∧ nm ≠ "" ∧ nm = k then some cid else none

/-- The first catalogue id contributed for symbol key `k` (catalogue order). -/
def firstSymId (coins : List Coin) (k : String) : Option String :=
  coins.findSome? fun c => symEntryOf c k

/-- The first catalogue id contributed for name key `k` (catalogue order). -/
def firstNameId (coins : List Coin) (k : String) : Option String :=
  coins.findSome? fun c => nameEntryOf c k

/-- The environment of external effects consumed by the services layer. -/
structure FetchEnv where
  /-- Best-effort yfinance last price per ticker (`_yf_last_price` and the
  fast-info/history two-step of `fx_rate` / `fetch_equity_price`). -/
  yf : String → Option ℚ
  /-- Reported `fast_info['currency']` per ticker. -/
  yfCurrency : String → Option String
  /-- CoinGecko cached symbol→id map. -/
  cgSym : String → Option String
  /-- CoinGecko cached name→id map. -/
  cgName : String → Option String
  /-- CoinGecko simple-price endpoint: (id, lowercased vs_currency) → price. -/
  cgPrice : String → String → Option ℚ
  /-- Recursion fuel for `fx_rate` triangulation. -/
  fuel : Nat

/-- Embedding of `fetch_crypto_price_by_id` of `services.py`. -/
def fetchCryptoPriceById (E : FetchEnv) (cgId target : String) :
    Except Err (ℚ × String) :=
  match cgNormalizeId E.cgSym E.cgName cgId with
  | .error e => .error e
  | .ok normalized =>
    match E.cgPrice normalized (strLower target) with
    | some px => .ok (px, "coingecko(" ++ normalized ++ "->" ++ strUpper target ++ ")")
    | none => .error (.priceUnavailable cgId normalized target)

/-- The fixed `gbx_like` set of pence/penny-equivalent-GBP spellings in
`fetch_equity_price`. -/
def gbxLike : List String :=
  ["GBX", "GBP (PENCE)", "GBP (GBX)", "GBP/GBX", "GBP GBX", "GBP(GBX)", "GBp"]

/-- Embedding of `fetch_equity_price` of `services.py`: two-step last-price resolution,
native-currency detection (reported field, else caller hint, else empty),
pence normalization against `gbx_like`, `.L`-suffix default, FX conversion. -/
def fetchEquityPrice (yf : String → Option ℚ) (yfCurrency : String → Option String)
    (fuel : Nat) (symbol target : String) (hint : Option String) :
    Except Err (ℚ × String) :=
  let t := strUpper target
  let reported := (yfCurrency symbol).getD ""
  let native0 := strUpper (if reported = "" then (hint.getD "") else reported)
  match yf symbol with
  | none => .error (.noHistory symbol)
  | some px0 =>
    let px1 := if native0 ∈ gbxLike then px0 / 100 else px0
    let native1 := if native0 ∈ gbxLike then "GBP" else native0
    let native2 :=
      if native1 = "" then (if strEndsWith (strUpper symbol) ".L" then "GBP" else "USD")
      else native1
    if native2 ≠ t then
      match fxRate yf fuel native2 t with
      | some r =>
        .ok (px1 * r, "yfinance(" ++ symbol ++ ")+fx(" ++ native2 ++ "->" ++ t ++ ")")
      | none => .error (.fxUnavailable native2 t)
    else .ok (px1, "yfinance(" ++ symbol ++ ")")

/-- Embedding of `fetch_silver_price` of `services.py`: direct `XAG<CCY>=X`, else
`XAGUSD=X` + FX, else `SI=F` + FX, else `(None, "unavailable")`.
An FX failure inside tiers 2/3 propagates as an error (Python raise). -/
def fetchSilverPrice (yf : String → Option ℚ) (fuel : Nat) (target : String) :
    Except Err (Option ℚ × String) :=
  let t := strUpper target
  let direct := "XAG" ++ t ++ "=X"
  match yf direct with
  | some p => .ok (some p, "yfinance(" ++ direct ++ ")")
  | none =>
    match yf "XAGUSD=X" with
    | some pUsd =>
      match fxRate yf fuel "USD" t with
      | some r => .ok (some (pUsd * r), "yfinance(XAGUSD=X)+fx")
      | none => .error (.fxUnavailable "USD" t)
    | none =>
      match yf "SI=F" with
      | some pFut =>
        match fxRate yf fuel "USD" t with
        | some r => .ok (some (pFut * r), "yfinance(SI=F)+fx")
        | none => .error (.fxUnavailable "USD" t)
      | none => .ok (none, "unavailable")

/-- Embedding of `fetch_spot_by_source` of `services.py`: the data-driven dispatch over
`source` ∈ {coingecko, yfinance, manual} with the metal explicit-ref branch. -/
def fetchSpotBySource (E : FetchEnv) (assetType source sourceRef target : String)
    (hint : Option String) : Except Err (ℚ × String) :=
  let src := strLower source
  let aty := strLower assetType
  let t := strUpper target
  if src = "coingecko" then
    if sourceRef = "" then .error .invalidRequest
    else fetchCryptoPriceById E sourceRef t
  else if src = "yfinance" then
    if aty = "metal" then
      let explicitRes : Option (Except Err (ℚ × String)) :=
        if sourceRef ≠ "" ∧ strUpper sourceRef ≠ "XAG" then
          match E.yf sourceRef with
          | some p =>
            let native := strUpper (if (hint.getD "") = "" then "USD" else hint.getD "")
            if native ≠ t then
              match fxRate E.yf E.fuel native t with
              | some r =>
                some (.ok (p * r,
                  "yfinance(" ++ sourceRef ++ ")+fx(" ++ native ++ "->" ++ t ++ ")"))
              | none => some (.error (.fxUnavailable native t))
            else some (.ok (p, "yfinance(" ++ sourceRef ++ ")"))
          | none => none
        else none
      match explicitRes with
      | some r => r
      | none =>
        match fetchSilverPrice E.yf E.fuel t with
        | .error e => .error e
        | .ok (none, _) => .error .silverUnavailable
        | .ok (some px, tag) => .ok (px, tag)
    else
      fetchEquityPrice E.yf E.yfCurrency E.fuel sourceRef t hint
  else if src = "manual" then .error .manualNotImplemented
  else .error (.unsupportedSource src)

/-!
Embedding of the persistence-facing part (`app/models.py`): the `Asset`,
`Holding` and `Price` rows, `latest_price_for_asset`, `poll_one_asset` and
`portfolio_overview`.  The database is explicit state (`DB`); a price poll
threads the state and appends `Price` rows.  Timestamps are `Nat`
(`datetime.utcnow()` becomes a `now` parameter).
`BASE_CCY` is the config default, `"GBP"` (from `app/config.py`).
-/

/-- Default base currency from `app/config.py` (`BASE_CCY`, default "GBP"). -/
def BASE_CCY : String := "GBP"

/-- The `Asset` row of `app/models.py`. -/
structure Asset where
  id : Nat
  symbol : String
  type : String
  source : String
  sourceRef : String
  nativeCcy : Option String
deriving DecidableEq, Repr

/-- The `Holding` row of `app/models.py`. -/
structure Holding where
  id : Nat
  account : String
  assetId : Nat
  qty : ℚ
  userId : Nat
deriving DecidableEq, Repr

/-- The `Price` row of `app/models.py` (append-only price log). -/
structure Price where
  assetId : Nat
  ts : Nat
  price : ℚ
  source : String
  baseCcy : String
deriving DecidableEq, Repr

/-- The read/write state behind the SQL session. -/
structure DB where
  assets : List Asset
  holdings : List Holding
  prices : List Price
deriving DecidableEq, Repr

/-- Embedding of `Session.get(Asset, asset_id)`: primary-key lookup. -/
def findAsset (assets : List Asset) (aid : Nat) : Option Asset :=
  assets.find? fun a => a.id = aid

/-- Embedding of `latest_price_for_asset`: latest `Price` row for `(asset_id, base_ccy)`
by timestamp (leftmost row wins among equal timestamps). -/
def latestPriceForAsset (db : DB) (aid : Nat) (baseCcy : String) : Option ℚ :=
  let rows := db.prices.filter fun p => p.assetId = aid ∧ p.baseCcy = baseCcy
  (rows.foldl
    (fun best p =>
      match best with
      | none => some p
      | some b => if p.ts > b.ts then some p else some b)
    none).map Price.price

/-- Embedding of `poll_one_asset`: fetch a fresh spot price for one asset and append a
`Price` row; on a missing asset or any fetch error return `false` with the
state unchanged. -/
def pollOneAsset (E : FetchEnv) (now : Nat) (db : DB) (aid : Nat) (baseCcy : String) :
    Bool × DB :=
  match findAsset db.assets aid with
  | none => (false, db)
  | some a =>
    match fetchSpotBySource E a.type a.source a.sourceRef baseCcy a.nativeCcy with
    | .error _ => (false, db)
    | .ok (px, src) =>
      (true, { db with prices := db.prices ++ [⟨a.id, now, px, src, baseCcy⟩] })

/-- One line of the overview (`items` entry of `portfolio_overview`). -/
structure Item where
  symbol : String
  type : String
  qty : ℚ
  lastPx : ℚ
  value : ℚ
  account : String
  holdingId : Nat
deriving DecidableEq, Repr

/-- The overview record returned by `portfolio_overview`. -/
structure Overview where
  baseCcy : String
  total : ℚ
  items : List Item
deriving DecidableEq, Repr

/-- The item built for holding `h` of asset `a` at price `l`. -/
def mkItem (a : Asset) (h : Holding) (l v : ℚ) : Item :=
  ⟨a.symbol, a.type, h.qty, l, v, h.account, h.id⟩

/-- Stable descending insertion: keep existing elements with a value `≥` the
new one ahead of it (so equal values retain original order). -/
def insertDesc (x : Item) : List Item → List Item
  | [] => [x]
  | y :: ys => if x.value ≤ y.value then y :: insertDesc x ys else x :: y :: ys

/-- Embedding of `items.sort(key=value, reverse=True)`: stable sort by value descending. -/
def sortDescItems (l : List Item) : List Item :=
  l.foldl (fun acc x => insertDesc x acc) []

/-- The per-holding loop of `portfolio_overview`: look up the asset, read the
latest stored price, on a miss attempt one on-demand poll, skip the line if
the price is still missing, otherwise accumulate `qty * last` into the total
and append an item.  The database threads through because a successful poll
appends a `Price` row. -/
def overviewLoop (E : FetchEnv) (now : Nat) (base : String) :
    DB → ℚ → List Item → List Holding → DB × ℚ × List Item
  | db, total, items, [] => (db, total, items)
  | db, total, items, h :: hs =>
    match findAsset db.assets h.assetId with
    | none => overviewLoop E now base db total items hs
    | some a =>
      match latestPriceForAsset db a.id base with
      | some l =>
        let v := h.qty * l
        overviewLoop E now base db (total + v) (items ++ [mkItem a h l v]) hs
      | none =>
        let res := pollOneAsset E now db a.id base
        match res.1, latestPriceForAsset res.2 a.id base with
        | true, some l =>
          let v := h.qty * l
          overviewLoop E now base res.2 (total + v) (items ++ [mkItem a h l v]) hs
        | true, none => overviewLoop E now base res.2 total items hs
        | false, _ => overviewLoop E now base res.2 total items hs

/-- The holdings in scope: all, or filtered to one user (`user_id`). -/
def scopedHoldings (db : DB) (userId : Option Nat) : List Holding :=
  match userId with
  | some uid => db.holdings.filter fun h => h.userId = uid
  | none => db.holdings

/-- Embedding of `portfolio_overview` of `app/models.py`. -/
def portfolioOverview (E : FetchEnv) (now : Nat) (db : DB)
    (baseCcy : Option String) (userId : Option Nat) : Overview :=
  let base := strUpper (baseCcy.getD BASE_CCY)
  let holds := scopedHoldings db userId
  if holds.isEmpty then ⟨base, 0, []⟩
  else
    let r := overviewLoop E now base db 0 [] holds
    ⟨base, r.2.1, sortDescItems r.2.2⟩

/-- The price a holding's line carries when it resolves against the state
`db`: the latest stored price when a `Price` row exists for the asset in
base `b`, otherwise the price returned by the single on-demand fetch when
that fetch succeeds (the loop stores that price, and it becomes the latest
row for the asset), and `none` when both are unavailable. -/
def effectiveLatest (E : FetchEnv) (db : DB) (b : String) (aid : Nat) : Option ℚ :=
  match latestPriceForAsset db aid b with
  | some l => some l
  | none =>
    match findAsset db.assets aid with
    | none => none
    | some a =>
      match fetchSpotBySource E a.type a.source a.sourceRef b a.nativeCcy with
      | .ok (px, _) => some px
      | .error _ => none

/-- The line `portfolio_overview` builds for holding `h` when its price
resolves — from a stored `PricePoint` or from the successful single
on-demand resolve-and-store — valued at `qty * last`; `none` when the
holding's price cannot be resolved. -/
def resolvedLine (E : FetchEnv) (db : DB) (b : String) (h : Holding) : Option Item :=
  match findAsset db.assets h.assetId with
  | none => none
  | some a =>
    match effectiveLatest E db b a.id with
    | none => none
    | some l => some (mkItem a h l (h.qty * l))

/-!
Concrete sample environments and database states used by the theorems below
to evaluate the embedded code on specific inputs.
-/

/-- Quote environment quoting `GBPUSD=X` at 2 and `USDGBP=X` at 3. -/
def envC2 : String → Option ℚ := fun t =>
  if t = "GBPUSD=X" then some 2 else if t = "USDGBP=X" then some 3 else none

/-- Quote environment where ticker `BARC.L` has last price 150. -/
def envC1 : String → Option ℚ := fun t => if t = "BARC.L" then some 150 else none

/-- Currency environment reporting `"GBp"` — Yahoo's spelling for pence, and a
member of the source's `gbx_like` set — for ticker `BARC.L`. -/
def curC1 : String → Option String := fun t => if t = "BARC.L" then some "GBp" else none

/-- Currency environment reporting `"GBX"` for ticker `BARC.L`. -/
def curC1b : String → Option String := fun t => if t = "BARC.L" then some "GBX" else none

/-- Quote environment with a USD silver spot of 20 and a USD→GBP rate of 4/5. -/
def yfW : String → Option ℚ := fun t =>
  if t = "XAGUSD=X" then some 20 else if t = "USDGBP=X" then some (4/5) else none

/-- Small two-coin CoinGecko catalogue containing Bitcoin and Ethereum. -/
def demoCatalogue : List Coin :=
  [⟨some "bitcoin", some "btc", some "Bitcoin"⟩,
   ⟨some "ethereum", some "eth", some "Ethereum"⟩]

/-- Symbol→id map built from `demoCatalogue`. -/
def demoSym : String → Option String := (buildCgIndex demoCatalogue).1

/-- Name→id map built from `demoCatalogue`. -/
def demoName : String → Option String := (buildCgIndex demoCatalogue).2

/-- Environment in which every upstream source is empty. -/
def E0 : FetchEnv :=
  { yf := fun _ => none, yfCurrency := fun _ => none, cgSym := fun _ => none,
    cgName := fun _ => none, cgPrice := fun _ _ => none, fuel := 0 }

/-- Environment in which only CoinGecko's bitcoin price in GBP is available. -/
def E10 : FetchEnv :=
  { E0 with cgPrice := fun cid vs => if cid = "bitcoin" ∧ vs = "gbp" then some 30000 else none }

/-- Database with three holdings: BTC and AAPL carry stored GBP prices, XMR
has no stored price (and `E0` makes its on-demand fetch fail). -/
def db0 : DB :=
  { assets :=
      [⟨1, "BTC", "crypto", "coingecko", "bitcoin", none⟩,
       ⟨2, "AAPL", "equity", "yfinance", "AAPL", some "USD"⟩,
       ⟨3, "XMR", "crypto", "coingecko", "monero", none⟩],
    holdings :=
      [⟨1, "Demo", 1, 2, 1⟩, ⟨2, "Demo", 2, 3, 1⟩, ⟨3, "Demo", 3, 5, 1⟩],
    prices :=
      [⟨1, 10, 100, "seed", "GBP"⟩, ⟨2, 10, 50, "seed", "GBP"⟩] }

/-- Environment in which only CoinGecko's monero price in GBP is available:
against `db0`, the BTC and AAPL holdings resolve from stored prices while
the XMR holding resolves through the successful on-demand fetch (at 30,
its line value 150 ties with AAPL's). -/
def E8 : FetchEnv :=
  { E0 with cgPrice := fun cid vs => if cid = "monero" ∧ vs = "gbp" then some 30 else none }

/-- First-some choice on options (Python dict-lookup fallback chaining). -/
def optOr (a b : Option String) : Option String :=
  match a with
  | some v => some v
  | none => b

/-- Price resolution fails permanently for asset id `tid` against asset table
`A0`: either no such asset row exists, or no `Price` row is stored for it in
base `b` and the on-demand fetch for its descriptor raises an error. -/
def Unresolvable (E : FetchEnv) (A0 : List Asset) (b : String) (db : DB)
    (tid : Nat) : Prop :=
  findAsset A0 tid = none ∨
    (latestPriceForAsset db tid b = none ∧
     ∀ a, findAsset A0 tid = some a →
       ∃ e, fetchSpotBySource E a.type a.source a.sourceRef b a.nativeCcy = .error e)

/-- The descending-by-value order used for overview lines. -/
def descOrder (u v : Item) : Prop := v.value ≤ u.value

/-!
Theorems settling the claims, in claim order.
-/

/-- C6: for every currency code X, `fx_rate(X, X)` returns exactly 1.0, for
every quote environment and every fuel — in particular the result does not
depend on any network data. -/
theorem fx_rate_identity (yf : String → Option ℚ) (fuel : Nat) (x : String) :
    fxRate yf fuel x x = some 1 := by
  rw [fxRate.eq_def]
  simp

/-- C2 counterexample: the pair (GBP, GBP) has no entry in the direct-pair
table, yet `fx_rate("GBP","GBP")` is 1.0 by the identity short-circuit while
the triangulated product `fx_rate(GBP,via) * fx_rate(via,GBP)` (via = USD per
the rule) evaluates to 2 * 3 = 6 in the environment `envC2` — so the claimed
equality fails for this direct-entry-free pair. -/
theorem fx_triangulation_fails_identity_pair :
    yfFxTicker "GBP" "GBP" = none
    ∧ viaOf "GBP" "GBP" = "USD"
    ∧ fxRate envC2 5 "GBP" "GBP" = some 1
    ∧ fxRate envC2 5 "GBP" "USD" = some 2
    ∧ fxRate envC2 5 "USD" "GBP" = some 3
    ∧ fxRate envC2 5 "GBP" "GBP" ≠
        (match fxRate envC2 5 "GBP" "USD", fxRate envC2 5 "USD" "GBP" with
         | some r1, some r2 => some (r1 * r2)
         | _, _ => none) := by
  decide

/-- C2 amended: for every pair of DISTINCT (upper-case) currency codes with no
entry in the direct-pair table, `fx_rate` computes the product of the two
triangulated sub-calls (as partial values: it returns the product exactly
when both sub-calls return), with the intermediate chosen as USD when neither
endpoint is USD, else EUR when neither endpoint is EUR, else GBP.  For equal
endpoints the identity short-circuit returns 1.0 before any triangulation. -/
theorem fx_rate_triangulates (yf : String → Option ℚ) (n : Nat) (b q : String)
    (hb : strUpper b = b) (hq : strUpper q = q) (hne : b ≠ q)
    (hnd : yfFxTicker b q = none) :
    fxRate yf (n + 1) b q =
      (match fxRate yf n b (viaOf b q), fxRate yf n (viaOf b q) q with
       | some r1, some r2 => some (r1 * r2)
       | _, _ => none)
    ∧ viaOf b q = (if b ≠ "USD" ∧ q ≠ "USD" then "USD"
        else if b ≠ "EUR" ∧ q ≠ "EUR" then "EUR" else "GBP") := by
  constructor
  · conv_lhs => rw [fxRate]
    simp only [hb, hq, if_neg hne, hnd]
  · rfl

/-- Witness for `fx_rate_triangulates` at the concrete pair (GBP, JPY). -/
theorem fx_rate_triangulates_witness :
    fxRate (fun _ => none) 1 "GBP" "JPY" =
      (match fxRate (fun _ => none) 0 "GBP" (viaOf "GBP" "JPY"),
             fxRate (fun _ => none) 0 (viaOf "GBP" "JPY") "JPY" with
       | some r1, some r2 => some (r1 * r2)
       | _, _ => none)
    ∧ viaOf "GBP" "JPY" = (if "GBP" ≠ "USD" ∧ "JPY" ≠ "USD" then "USD"
        else if "GBP" ≠ "EUR" ∧ "JPY" ≠ "EUR" then "EUR" else "GBP") :=
  fx_rate_triangulates (fun _ => none) 0 "GBP" "JPY" (by decide) (by decide)
    (by decide) (by decide)

/-- C1 (code bug): the source's `gbx_like` set contains the spelling `"GBp"`,
but `fetch_equity_price` upper-cases the reported/hinted currency BEFORE the
membership test, so an equity whose native currency is reported as `"GBp"`
(price 150, target GBP) is not divided by 100: the result is 150, not the
1.5 required by the claim and by the function's own docstring ("Normalize
GBp (pence, 'GBX') to GBP by dividing by 100").  With the spelling `"GBX"`
the normalization does fire and yields exactly 150/100. -/
theorem equity_gbp_pence_spelling_not_normalized :
    "GBp" ∈ gbxLike
    ∧ fetchEquityPrice envC1 curC1 0 "BARC.L" "GBP" none =
        .ok (150, "yfinance(BARC.L)")
    ∧ fetchEquityPrice envC1 curC1b 0 "BARC.L" "GBP" none =
        .ok (150 / 100, "yfinance(BARC.L)")
    ∧ (150 : ℚ) ≠ 150 / 100 := by
  decide

/-- C3 counterexample: the empty string is all-lowercase with no internal
space, yet `_cg_normalize_id` raises the empty-identifier error instead of
returning it as a raw provider id. -/
theorem cg_normalize_empty_not_raw_id :
    (strLower "" = "" ∧ strContains "" ' ' = false)
    ∧ cgNormalizeId demoSym demoName "" = .error .emptyCryptoId
    ∧ (Except.error Err.emptyCryptoId ≠ (Except.ok (strLower "") : Except Err String)) := by
  decide

/-- C3 amended: for every input whose whitespace-stripped form is nonempty:
if the stripped form is all-lowercase with no space it is returned as the raw
provider id for EVERY cache state (no cache consultation); otherwise the
cache is consulted by the upper-cased form as a symbol, then by the
lower-cased form as a human name, failing with the unknown-asset error when
neither matches; and with a populated index containing Ethereum, "ETH",
"Ethereum" and "ethereum" all resolve to the provider id "ethereum". -/
theorem cg_normalize_id_branches :
    (∀ symMap nameMap s, strTrim s ≠ "" → strLower (strTrim s) = strTrim s →
       ¬ strContains (strTrim s) ' ' →
       cgNormalizeId symMap nameMap s = .ok (strLower (strTrim s)))
    ∧ (∀ symMap nameMap s, strTrim s ≠ "" →
       ¬ (strLower (strTrim s) = strTrim s ∧ ¬ strContains (strTrim s) ' ') →
       cgNormalizeId symMap nameMap s =
         (match symMap (strUpper (strTrim s)) with
          | some cid => Except.ok cid
          | none =>
            match nameMap (strLower (strTrim s)) with
            | some cid => Except.ok cid
            | none => Except.error (.unknownAsset (strTrim s))))
    ∧ (cgNormalizeId demoSym demoName "ETH" = .ok "ethereum"
       ∧ cgNormalizeId demoSym demoName "Ethereum" = .ok "ethereum"
       ∧ cgNormalizeId demoSym demoName "ethereum" = .ok "ethereum") := by
  refine ⟨?_, ?_, by decide⟩
  · intro sm nm s h1 h2 h3
    simp only [cgNormalizeId, if_neg h1, if_pos (And.intro h2 h3)]
  · intro sm nm s h1 h2
    simp only [cgNormalizeId, if_neg h1, if_neg h2]

/-- Witness for `cg_normalize_id_branches` at the raw id "monero". -/
theorem cg_normalize_id_branches_witness :
    cgNormalizeId (fun _ => none) (fun _ => none) "monero" =
      .ok (strLower (strTrim "monero")) :=
  cg_normalize_id_branches.1 (fun _ => none) (fun _ => none) "monero"
    (by decide) (by decide) (by decide)

theorem optOr_none_left (b : Option String) : optOr none b = b := rfl

theorem optOr_some (v : String) (b : Option String) : optOr (some v) b = some v := rfl

theorem optOr_none_right (a : Option String) : optOr a none = a := by
  cases a <;> rfl

theorem optOr_assoc (a b c : Option String) :
    optOr (optOr a b) c = optOr a (optOr b c) := by
  cases a <;> rfl

theorem cgIndexStep_fst (maps : (String → Option String) × (String → Option String))
    (c : Coin) (k : String) :
    (cgIndexStep maps c).1 k = optOr (maps.1 k) (symEntryOf c k) := by
  unfold cgIndexStep symEntryOf
  dsimp only
  by_cases h : strLower (c.id.getD "") ≠ "" ∧ strUpper (c.symbol.getD "") ≠ "" ∧
      (maps.1 (strUpper (c.symbol.getD ""))).isNone
  · rw [if_pos h]
    have hnone : maps.1 (strUpper (c.symbol.getD "")) = none :=
      Option.isNone_iff_eq_none.mp h.2.2
    by_cases hk : k = strUpper (c.symbol.getD "")
    · simp only [mapInsert, if_pos hk]
      rw [hk, hnone, optOr_none_left, if_pos ⟨h.1, h.2.1, rfl⟩]
    · simp only [mapInsert, if_neg hk]
      rw [if_neg (fun hc => hk hc.2.2.symm), optOr_none_right]
  · rw [if_neg h]
    by_cases hcid : strLower (c.id.getD "") = ""
    · rw [if_neg (fun hc => hc.1 hcid), optOr_none_right]
    · by_cases hsym : strUpper (c.symbol.getD "") = ""
      · rw [if_neg (fun hc => hc.2.1 hsym), optOr_none_right]
      · cases hv : maps.1 (strUpper (c.symbol.getD "")) with
        | none =>
          exact absurd ⟨hcid, hsym, by rw [hv]; rfl⟩ h
        | some v =>
          by_cases hk : k = strUpper (c.symbol.getD "")
          · rw [hk, hv, optOr_some]
          · rw [if_neg (fun hc => hk hc.2.2.symm), optOr_none_right]

theorem cgIndexStep_snd (maps : (String → Option String) × (String → Option String))
    (c : Coin) (k : String) :
    (cgIndexStep maps c).2 k = optOr (maps.2 k) (nameEntryOf c k) := by
  unfold cgIndexStep nameEntryOf
  dsimp only
  by_cases h : strLower (c.id.getD "") ≠ "" ∧ strLower (c.name.getD "") ≠ "" ∧
      (maps.2 (strLower (c.name.getD ""))).isNone
  · rw [if_pos h]
    have hnone : maps.2 (strLower (c.name.getD "")) = none :=
      Option.isNone_iff_eq_none.mp h.2.2
    by_cases hk : k = strLower (c.name.getD "")
    · simp only [mapInsert, if_pos hk]
      rw [hk, hnone, optOr_none_left, if_pos ⟨h.1, h.2.1, rfl⟩]
    · simp only [mapInsert, if_neg hk]
      rw [if_neg (fun hc => hk hc.2.2.symm), optOr_none_right]
  · rw [if_neg h]
    by_cases hcid : strLower (c.id.getD "") = ""
    · rw [if_neg (fun hc => hc.1 hcid), optOr_none_right]
    · by_cases hnm : strLower (c.name.getD "") = ""
      · rw [if_neg (fun hc => hc.2.1 hnm), optOr_none_right]
      · cases hv : maps.2 (strLower (c.name.getD "")) with
        | none =>
          exact absurd ⟨hcid, hnm, by rw [hv]; rfl⟩ h
        | some v =>
          by_cases hk : k = strLower (c.name.getD "")
          · rw [hk, hv, optOr_some]
          · rw [if_neg (fun hc => hk hc.2.2.symm), optOr_none_right]

theorem firstSymId_cons (c : Coin) (cs : List Coin) (k : String) :
    firstSymId (c :: cs) k = optOr (symEntryOf c k) (firstSymId cs k) := by
  cases h : symEntryOf c k <;>
    simp [firstSymId, List.findSome?_cons, h, optOr]

theorem firstNameId_cons (c : Coin) (cs : List Coin) (k : String) :
    firstNameId (c :: cs) k = optOr (nameEntryOf c k) (firstNameId cs k) := by
  cases h : nameEntryOf c k <;>
    simp [firstNameId, List.findSome?_cons, h, optOr]

theorem buildCgIndex_go (k : String) (coins : List Coin) :
    ∀ maps : (String → Option String) × (String → Option String),
      (coins.foldl cgIndexStep maps).1 k = optOr (maps.1 k) (firstSymId coins k)
      ∧ (coins.foldl cgIndexStep maps).2 k = optOr (maps.2 k) (firstNameId coins k) := by
  induction coins with
  | nil =>
    intro maps
    simp [firstSymId, firstNameId, optOr_none_right]
  | cons c cs ih =>
    intro maps
    have h1 := (ih (cgIndexStep maps c)).1
    have h2 := (ih (cgIndexStep maps c)).2
    constructor
    · rw [List.foldl_cons, h1, cgIndexStep_fst, firstSymId_cons, optOr_assoc]
    · rw [List.foldl_cons, h2, cgIndexStep_snd, firstNameId_cons, optOr_assoc]

/-- C9: the rebuilt crypto index keeps, for every symbol key and every name
key, exactly the id of the FIRST catalogue entry that contributes that key —
later duplicates never overwrite an existing entry, so the maps are a
deterministic function of the catalogue order. -/
theorem cg_index_first_id_wins (coins : List Coin) (k : String) :
    (buildCgIndex coins).1 k = firstSymId coins k
    ∧ (buildCgIndex coins).2 k = firstNameId coins k := by
  have h := buildCgIndex_go k coins (fun _ => none, fun _ => none)
  rwa [show ((fun _ => none, fun _ => none) :
      (String → Option String) × (String → Option String)).1 k = none from rfl,
    show ((fun _ => none, fun _ => none) :
      (String → Option String) × (String → Option String)).2 k = none from rfl,
    optOr_none_left, optOr_none_left] at h

/-- C7: the spot-price dispatch produces the specified typed failures: a
crypto-provider call with empty providerRef fails with the invalid-request
error for EVERY adapter environment (no delegation); a manual-provider call
fails with the not-implemented error; any provider other than coingecko,
yfinance or manual fails with the unsupported-source error. -/
theorem spot_dispatch_typed_failures :
    (∀ E aty s t hint, strLower s = "coingecko" →
       fetchSpotBySource E aty s "" t hint = .error .invalidRequest)
    ∧ (∀ E aty s ref t hint, strLower s = "manual" →
       fetchSpotBySource E aty s ref t hint = .error .manualNotImplemented)
    ∧ (∀ E aty s ref t hint, strLower s ≠ "coingecko" → strLower s ≠ "yfinance" →
       strLower s ≠ "manual" →
       fetchSpotBySource E aty s ref t hint = .error (.unsupportedSource (strLower s))) := by
  refine ⟨?_, ?_, ?_⟩
  · intro E aty s t hint h
    simp [fetchSpotBySource, h]
  · intro E aty s ref t hint h
    simp [fetchSpotBySource, h]
  · intro E aty s ref t hint h1 h2 h3
    simp [fetchSpotBySource, if_neg h1, if_neg h2, if_neg h3]

/-- Witness for `spot_dispatch_typed_failures` on the three dispatch errors. -/
theorem spot_dispatch_typed_failures_witness :
    fetchSpotBySource E0 "crypto" "coingecko" "" "GBP" none = .error .invalidRequest
    ∧ fetchSpotBySource E0 "x" "MANUAL" "r" "GBP" none = .error .manualNotImplemented
    ∧ fetchSpotBySource E0 "x" "alpha" "r" "GBP" none =
        .error (.unsupportedSource (strLower "alpha")) :=
  ⟨spot_dispatch_typed_failures.1 E0 "crypto" "coingecko" "GBP" none (by decide),
   spot_dispatch_typed_failures.2.1 E0 "x" "MANUAL" "r" "GBP" none (by decide),
   spot_dispatch_typed_failures.2.2 E0 "x" "alpha" "r" "GBP" none
     (by decide) (by decide) (by decide)⟩

/-- C10: `poll_one_asset` is atomic on the price log: a missing asset id or
any fetch failure returns `false` with the database unchanged; a successful
fetch returns `true` and appends exactly one `Price` row for that asset in
the requested base currency. -/
theorem poll_one_asset_atomic :
    (∀ E now db aid base, findAsset db.assets aid = none →
       pollOneAsset E now db aid base = (false, db))
    ∧ (∀ E now db aid base a e, findAsset db.assets aid = some a →
       fetchSpotBySource E a.type a.source a.sourceRef base a.nativeCcy = .error e →
       pollOneAsset E now db aid base = (false, db))
    ∧ (∀ E now db aid base a px src, findAsset db.assets aid = some a →
       fetchSpotBySource E a.type a.source a.sourceRef base a.nativeCcy = .ok (px, src) →
       pollOneAsset E now db aid base =
         (true, { db with prices := db.prices ++ [⟨a.id, now, px, src, base⟩] })
       ∧ a.id = aid) := by
  refine ⟨?_, ?_, ?_⟩
  · intro E now db aid base h
    simp [pollOneAsset, h]
  · intro E now db aid base a e h1 h2
    simp [pollOneAsset, h1, h2]
  · intro E now db aid base a px src h1 h2
    refine ⟨by simp [pollOneAsset, h1, h2], ?_⟩
    have hp := List.find?_some h1
    exact of_decide_eq_true hp

/-- Witness for `poll_one_asset_atomic`: a successful bitcoin poll appends
one row, and a poll for a missing asset id leaves the database unchanged. -/
theorem poll_one_asset_atomic_witness :
    (pollOneAsset E10 42 db0 1 "GBP" =
      (true, { db0 with prices := db0.prices ++
        [⟨(⟨1, "BTC", "crypto", "coingecko", "bitcoin", none⟩ : Asset).id, 42,
          30000, "coingecko(bitcoin->GBP)", "GBP"⟩] })
     ∧ (⟨1, "BTC", "crypto", "coingecko", "bitcoin", none⟩ : Asset).id = 1)
    ∧ pollOneAsset E10 42 db0 99 "GBP" = (false, db0) :=
  ⟨poll_one_asset_atomic.2.2 E10 42 db0 1 "GBP"
      ⟨1, "BTC", "crypto", "coingecko", "bitcoin", none⟩ 30000 "coingecko(bitcoin->GBP)"
      (by decide) (by decide),
   poll_one_asset_atomic.1 E10 42 db0 99 "GBP" (by decide)⟩

theorem fetchSilverPrice_ne_silverUnavailable (yf : String → Option ℚ)
    (fuel : Nat) (tgt : String) :
    fetchSilverPrice yf fuel tgt ≠ .error .silverUnavailable := by
  unfold fetchSilverPrice
  dsimp only
  cases yf ("XAG" ++ strUpper tgt ++ "=X") with
  | some p => simp
  | none =>
    cases yf "XAGUSD=X" with
    | some pU =>
      cases fxRate yf fuel "USD" (strUpper tgt) with
      | some r => simp
      | none => simp
    | none =>
      cases yf "SI=F" with
      | some pF =>
        cases fxRate yf fuel "USD" (strUpper tgt) with
        | some r => simp
        | none => simp
      | none => simp

/-- C4: the silver resolver tries its three tiers in order with first success
winning — the direct metal-and-currency ticker, then the USD spot ticker
FX-converted, then the USD futures proxy FX-converted — and the
price-unavailable outcome occurs exactly when all three ticker lookups are
empty; in particular when only the USD-spot tier yields a price the result
carries the second-tier provenance tag for every value of the third-tier
source, and the resolver-level silver-unavailable error implies that all
three lookups were empty. -/
theorem silver_fallback_chain :
    (∀ yf fuel t p, strUpper t = t → yf ("XAG" ++ t ++ "=X") = some p →
       fetchSilverPrice yf fuel t = .ok (some p, "yfinance(" ++ ("XAG" ++ t ++ "=X") ++ ")"))
    ∧ (∀ yf fuel t p r, strUpper t = t → yf ("XAG" ++ t ++ "=X") = none →
       yf "XAGUSD=X" = some p → fxRate yf fuel "USD" t = some r →
       fetchSilverPrice yf fuel t = .ok (some (p * r), "yfinance(XAGUSD=X)+fx"))
    ∧ (∀ yf fuel t p r, strUpper t = t → yf ("XAG" ++ t ++ "=X") = none →
       yf "XAGUSD=X" = none → yf "SI=F" = some p → fxRate yf fuel "USD" t = some r →
       fetchSilverPrice yf fuel t = .ok (some (p * r), "yfinance(SI=F)+fx"))
    ∧ (∀ yf fuel t res, fetchSilverPrice yf fuel t = .ok (none, res) →
       res = "unavailable" ∧ yf ("XAG" ++ strUpper t ++ "=X") = none ∧
       yf "XAGUSD=X" = none ∧ yf "SI=F" = none)
    ∧ (∀ E t hint, strUpper t = t →
       fetchSpotBySource E "metal" "yfinance" "" t hint = .error .silverUnavailable →
       E.yf ("XAG" ++ t ++ "=X") = none ∧ E.yf "XAGUSD=X" = none ∧
       E.yf "SI=F" = none) := by
  have chain : ∀ yf fuel t res, fetchSilverPrice yf fuel t = .ok (none, res) →
      res = "unavailable" ∧ yf ("XAG" ++ strUpper t ++ "=X") = none ∧
      yf "XAGUSD=X" = none ∧ yf "SI=F" = none := by
    intro yf fuel t res h
    unfold fetchSilverPrice at h
    dsimp only at h
    cases hd : yf ("XAG" ++ strUpper t ++ "=X") with
    | some p => rw [hd] at h; simp at h
    | none =>
      rw [hd] at h
      cases hu : yf "XAGUSD=X" with
      | some pU =>
        rw [hu] at h
        cases hf : fxRate yf fuel "USD" (strUpper t) with
        | some r => rw [hf] at h; simp at h
        | none => rw [hf] at h; simp at h
      | none =>
        rw [hu] at h
        cases hs : yf "SI=F" with
        | some pF =>
          rw [hs] at h
          cases hf : fxRate yf fuel "USD" (strUpper t) with
          | some r => rw [hf] at h; simp at h
          | none => rw [hf] at h; simp at h
        | none =>
          rw [hs] at h
          refine ⟨?_, rfl, rfl, rfl⟩
          simpa using h.symm
  refine ⟨?_, ?_, ?_, chain, ?_⟩
  · intro yf fuel t p ht hd
    unfold fetchSilverPrice
    dsimp only
    rw [ht, hd]
  · intro yf fuel t p r ht hd hu hf
    unfold fetchSilverPrice
    dsimp only
    rw [ht, hd, hu, hf]
  · intro yf fuel t p r ht hd hu hs hf
    unfold fetchSilverPrice
    dsimp only
    rw [ht, hd, hu, hs, hf]
  · intro E t hint ht h
    have hred : fetchSpotBySource E "metal" "yfinance" "" t hint =
        (match fetchSilverPrice E.yf E.fuel (strUpper t) with
         | .error e => .error e
         | .ok (none, _) => .error .silverUnavailable
         | .ok (some px, tag) => .ok (px, tag)) := rfl
    rw [hred] at h
    cases hS : fetchSilverPrice E.yf E.fuel (strUpper t) with
    | error e =>
      rw [hS] at h
      simp only [Except.error.injEq] at h
      rw [h] at hS
      exact absurd hS (fetchSilverPrice_ne_silverUnavailable E.yf E.fuel (strUpper t))
    | ok pr =>
      obtain ⟨px, tag⟩ := pr
      cases px with
      | none =>
        have h3 := chain E.yf E.fuel (strUpper t) tag hS
        simp only [ht] at h3
        exact ⟨h3.2.1, h3.2.2.1, h3.2.2.2⟩
      | some p => rw [hS] at h; simp at h

/-- Witness for `silver_fallback_chain`: with the direct GBP ticker empty,
spot 20 on `XAGUSD=X` and a USD→GBP rate of 4/5, the second tier wins with
its provenance tag. -/
theorem silver_fallback_chain_witness :
    fetchSilverPrice yfW 1 "GBP" =
      .ok (some ((20 : ℚ) * (4 / 5)), "yfinance(XAGUSD=X)+fx") :=
  silver_fallback_chain.2.1 yfW 1 "GBP" 20 (4 / 5) (by decide) (by decide)
    (by decide) (by decide)

theorem insertDesc_mem (x : Item) (l : List Item) (y : Item)
    (h : y ∈ insertDesc x l) : y = x ∨ y ∈ l := by
  induction l with
  | nil =>
    simp only [insertDesc, List.mem_singleton] at h
    exact Or.inl h
  | cons z zs ih =>
    simp only [insertDesc] at h
    by_cases hc : x.value ≤ z.value
    · rw [if_pos hc] at h
      rcases List.mem_cons.mp h with h1 | h2
      · exact Or.inr (h1 ▸ List.mem_cons_self z zs)
      · rcases ih h2 with h3 | h4
        · exact Or.inl h3
        · exact Or.inr (List.mem_cons_of_mem z h4)
    · rw [if_neg hc] at h
      rcases List.mem_cons.mp h with h1 | h2
      · exact Or.inl h1
      · exact Or.inr h2

theorem insertDesc_sum (x : Item) (l : List Item) :
    ((insertDesc x l).map Item.value).sum = x.value + (l.map Item.value).sum := by
  induction l with
  | nil => simp [insertDesc]
  | cons z zs ih =>
    simp only [insertDesc]
    by_cases hc : x.value ≤ z.value
    · rw [if_pos hc]
      simp only [List.map_cons, List.sum_cons, ih]
      ring
    · rw [if_neg hc]
      simp only [List.map_cons, List.sum_cons]

theorem insertDesc_sorted (x : Item) (l : List Item)
    (hl : l.Pairwise descOrder) : (insertDesc x l).Pairwise descOrder := by
  induction l with
  | nil => simp [insertDesc]
  | cons z zs ih =>
    rcases List.pairwise_cons.mp hl with ⟨hz, hzs⟩
    simp only [insertDesc]
    by_cases hc : x.value ≤ z.value
    · rw [if_pos hc]
      refine List.pairwise_cons.mpr ⟨?_, ih hzs⟩
      intro y hy
      rcases insertDesc_mem x zs y hy with h1 | h2
      · rw [h1]; exact hc
      · exact hz y h2
    · rw [if_neg hc]
      refine List.pairwise_cons.mpr ⟨?_, hl⟩
      intro y hy
      rcases List.mem_cons.mp hy with h1 | h2
      · rw [h1]; exact le_of_not_le hc
      · exact le_trans (hz y h2) (le_of_not_le hc)

theorem insertDesc_filter (v : ℚ) (x : Item) (l : List Item)
    (hl : l.Pairwise descOrder) :
    (insertDesc x l).filter (fun it => decide (it.value = v)) =
      if x.value = v then l.filter (fun it => decide (it.value = v)) ++ [x]
      else l.filter (fun it => decide (it.value = v)) := by
  induction l with
  | nil =>
    by_cases hx : x.value = v <;> simp [insertDesc, hx]
  | cons z zs ih =>
    rcases List.pairwise_cons.mp hl with ⟨hz, hzs⟩
    simp only [insertDesc]
    by_cases hc : x.value ≤ z.value
    · rw [if_pos hc, List.filter_cons, ih hzs, List.filter_cons]
      by_cases hzv : z.value = v <;> by_cases hx : x.value = v <;> simp [hzv, hx]
    · have hlt : z.value < x.value := not_le.mp hc
      rw [if_neg hc, List.filter_cons]
      by_cases hx : x.value = v
      · have hemp : (z :: zs).filter (fun it => decide (it.value = v)) = [] := by
          refine List.filter_eq_nil_iff.mpr ?_
          intro a ha
          have hav : a.value < v := by
            rcases List.mem_cons.mp ha with h1 | h2
            · rw [h1]; exact hx ▸ hlt
            · exact hx ▸ lt_of_le_of_lt (hz a h2) hlt
          simp only [decide_eq_true_eq]
          exact ne_of_lt hav
        simp [hx, hemp]
      · simp [hx]

theorem sortDesc_go_mem (l : List Item) :
    ∀ acc y, y ∈ l.foldl (fun a x => insertDesc x a) acc → y ∈ acc ∨ y ∈ l := by
  induction l with
  | nil => intro acc y h; exact Or.inl h
  | cons x xs ih =>
    intro acc y h
    rw [List.foldl_cons] at h
    rcases ih (insertDesc x acc) y h with h1 | h2
    · rcases insertDesc_mem x acc y h1 with h3 | h4
      · exact Or.inr (h3 ▸ List.mem_cons_self x xs)
      · exact Or.inl h4
    · exact Or.inr (List.mem_cons_of_mem x h2)

theorem sortDesc_go_sorted (l : List Item) :
    ∀ acc, acc.Pairwise descOrder →
      (l.foldl (fun a x => insertDesc x a) acc).Pairwise descOrder := by
  induction l with
  | nil => intro acc h; exact h
  | cons x xs ih =>
    intro acc h
    rw [List.foldl_cons]
    exact ih (insertDesc x acc) (insertDesc_sorted x acc h)

theorem sortDesc_go_sum (l : List Item) :
    ∀ acc, (((l.foldl (fun a x => insertDesc x a) acc)).map Item.value).sum =
      (acc.map Item.value).sum + (l.map Item.value).sum := by
  induction l with
  | nil => intro acc; simp
  | cons x xs ih =>
    intro acc
    rw [List.foldl_cons, ih (insertDesc x acc), insertDesc_sum]
    simp only [List.map_cons, List.sum_cons]
    ring

theorem sortDesc_go_filter (v : ℚ) (l : List Item) :
    ∀ acc, acc.Pairwise descOrder →
      (l.foldl (fun a x => insertDesc x a) acc).filter
          (fun it => decide (it.value = v)) =
        acc.filter (fun it => decide (it.value = v)) ++
          l.filter (fun it => decide (it.value = v)) := by
  induction l with
  | nil => intro acc hs; simp
  | cons x xs ih =>
    intro acc hs
    rw [List.foldl_cons, ih (insertDesc x acc) (insertDesc_sorted x acc hs),
      insertDesc_filter v x acc hs, List.filter_cons]
    by_cases hx : x.value = v
    · simp [hx]
    · simp [hx]

theorem sortDescItems_mem (l : List Item) (y : Item)
    (h : y ∈ sortDescItems l) : y ∈ l := by
  rcases sortDesc_go_mem l [] y h with h1 | h2
  · exact absurd h1 (List.not_mem_nil y)
  · exact h2

theorem sortDescItems_sorted (l : List Item) :
    (sortDescItems l).Pairwise descOrder :=
  sortDesc_go_sorted l [] List.Pairwise.nil

theorem sortDescItems_sum (l : List Item) :
    ((sortDescItems l).map Item.value).sum = (l.map Item.value).sum := by
  have h := sortDesc_go_sum l []
  simpa [sortDescItems] using h

theorem sortDescItems_filter (v : ℚ) (l : List Item) :
    (sortDescItems l).filter (fun it => decide (it.value = v)) =
      l.filter (fun it => decide (it.value = v)) := by
  have h := sortDesc_go_filter v l [] List.Pairwise.nil
  simpa [sortDescItems] using h

theorem findAsset_id {assets : List Asset} {aid : Nat} {a : Asset}
    (h : findAsset assets aid = some a) : a.id = aid := by
  unfold findAsset at h
  have hp := List.find?_some h
  simpa using hp

theorem pollOneAsset_state (E : FetchEnv) (now : Nat) (db : DB) (aid : Nat)
    (b : String) :
    (pollOneAsset E now db aid b).2.assets = db.assets
    ∧ (pollOneAsset E now db aid b).2.holdings = db.holdings := by
  unfold pollOneAsset
  cases findAsset db.assets aid with
  | none => exact ⟨rfl, rfl⟩
  | some a =>
    dsimp only
    cases fetchSpotBySource E a.type a.source a.sourceRef b a.nativeCcy with
    | error e => exact ⟨rfl, rfl⟩
    | ok pr =>
      obtain ⟨px, src⟩ := pr
      exact ⟨rfl, rfl⟩

theorem latestPriceForAsset_append_ne (db : DB) (row : Price) (tid : Nat)
    (b : String) (hne : row.assetId ≠ tid) :
    latestPriceForAsset { db with prices := db.prices ++ [row] } tid b =
      latestPriceForAsset db tid b := by
  unfold latestPriceForAsset
  dsimp only
  rw [List.filter_append]
  have hrow : [row].filter (fun p => decide (p.assetId = tid ∧ p.baseCcy = b)) = [] := by
    simp [hne]
  rw [hrow, List.append_nil]

theorem pollOneAsset_preserves_unresolvable (E : FetchEnv) (now : Nat)
    (db : DB) (aid : Nat) (b : String) (tid : Nat) (A0 : List Asset)
    (hA : db.assets = A0) (hU : Unresolvable E A0 b db tid) :
    (pollOneAsset E now db aid b).2.assets = A0
    ∧ Unresolvable E A0 b (pollOneAsset E now db aid b).2 tid := by
  refine ⟨(pollOneAsset_state E now db aid b).1.trans hA, ?_⟩
  unfold pollOneAsset
  cases hfa : findAsset db.assets aid with
  | none => exact hU
  | some a =>
    dsimp only
    cases hfetch : fetchSpotBySource E a.type a.source a.sourceRef b a.nativeCcy with
    | error e => exact hU
    | ok pr =>
      obtain ⟨px, src⟩ := pr
      dsimp only
      rcases hU with hU | ⟨hlat, hfail⟩
      · exact Or.inl hU
      · refine Or.inr ⟨?_, hfail⟩
        have hane : a.id ≠ tid := by
          intro hid
          have haid : aid = tid := by
            rw [← findAsset_id hfa]
            exact hid
          have heq : findAsset A0 tid = some a := by
            rw [← hA, ← haid]
            exact hfa
          obtain ⟨e, he⟩ := hfail a heq
          rw [hfetch] at he
          exact Except.noConfusion he
        exact (latestPriceForAsset_append_ne db ⟨a.id, now, px, src, b⟩ tid b hane).trans hlat

theorem overviewLoop_total (E : FetchEnv) (now : Nat) (b : String) :
    ∀ (hs : List Holding) (db : DB) (total : ℚ) (items : List Item),
      total = (items.map Item.value).sum →
      (overviewLoop E now b db total items hs).2.1 =
        (((overviewLoop E now b db total items hs).2.2).map Item.value).sum := by
  intro hs
  induction hs with
  | nil =>
    intro db total items hinv
    simpa [overviewLoop] using hinv
  | cons h' hs' ih =>
    intro db total items hinv
    simp only [overviewLoop]
    cases hfa : findAsset db.assets h'.assetId with
    | none => exact ih db total items hinv
    | some a =>
      dsimp only
      cases hlat : latestPriceForAsset db a.id b with
      | some l =>
        refine ih db (total + h'.qty * l) (items ++ [mkItem a h' l (h'.qty * l)]) ?_
        simp [hinv, mkItem]
      | none =>
        dsimp only
        cases hok : (pollOneAsset E now db a.id b).1 with
        | true =>
          cases hlat2 : latestPriceForAsset (pollOneAsset E now db a.id b).2 a.id b with
          | some l =>
            refine ih (pollOneAsset E now db a.id b).2 (total + h'.qty * l)
              (items ++ [mkItem a h' l (h'.qty * l)]) ?_
            simp [hinv, mkItem]
          | none => exact ih (pollOneAsset E now db a.id b).2 total items hinv
        | false => exact ih (pollOneAsset E now db a.id b).2 total items hinv

theorem overviewLoop_excludes (E : FetchEnv) (now : Nat) (b : String)
    (tid hid : Nat) (A0 : List Asset) :
    ∀ (hs : List Holding) (db : DB) (total : ℚ) (items : List Item),
      db.assets = A0 →
      Unresolvable E A0 b db tid →
      (∀ h' ∈ hs, h'.id = hid → h'.assetId = tid) →
      (∀ it ∈ items, it.holdingId ≠ hid) →
      ∀ it ∈ (overviewLoop E now b db total items hs).2.2, it.holdingId ≠ hid := by
  intro hs
  induction hs with
  | nil =>
    intro db total items hA hU hids hitems it hit
    simp only [overviewLoop] at hit
    exact hitems it hit
  | cons h' hs' ih =>
    intro db total items hA hU hids hitems
    have hids' : ∀ h'' ∈ hs', h''.id = hid → h''.assetId = tid :=
      fun h'' hm => hids h'' (List.mem_cons_of_mem h' hm)
    simp only [overviewLoop]
    cases hfa : findAsset db.assets h'.assetId with
    | none => exact ih db total items hA hU hids' hitems
    | some a =>
      dsimp only
      have haid : a.id = h'.assetId := findAsset_id hfa
      cases hlat : latestPriceForAsset db a.id b with
      | some l =>
        refine ih db (total + h'.qty * l) (items ++ [mkItem a h' l (h'.qty * l)])
          hA hU hids' ?_
        intro it hit
        rcases List.mem_append.mp hit with h1 | h2
        · exact hitems it h1
        · have heq : it = mkItem a h' l (h'.qty * l) := List.mem_singleton.mp h2
          rw [heq]
          intro hcon
          have htid : h'.assetId = tid := hids h' (List.mem_cons_self h' hs') hcon
          rcases hU with hU2 | ⟨hlat0, hfail⟩
          · have hnone : findAsset db.assets h'.assetId = none := by
              rw [hA, htid]; exact hU2
            rw [hnone] at hfa
            exact Option.noConfusion hfa
          · have hsome : latestPriceForAsset db tid b = some l := by
              rw [← htid, ← haid]; exact hlat
            rw [hlat0] at hsome
            exact Option.noConfusion hsome
      | none =>
        dsimp only
        obtain ⟨hA', hU'⟩ :=
          pollOneAsset_preserves_unresolvable E now db a.id b tid A0 hA hU
        cases hok : (pollOneAsset E now db a.id b).1 with
        | true =>
          cases hlat2 : latestPriceForAsset (pollOneAsset E now db a.id b).2 a.id b with
          | some l =>
            refine ih (pollOneAsset E now db a.id b).2 (total + h'.qty * l)
              (items ++ [mkItem a h' l (h'.qty * l)]) hA' hU' hids' ?_
            intro it hit
            rcases List.mem_append.mp hit with h1 | h2
            · exact hitems it h1
            · have heq : it = mkItem a h' l (h'.qty * l) := List.mem_singleton.mp h2
              rw [heq]
              intro hcon
              have htid : h'.assetId = tid := hids h' (List.mem_cons_self h' hs') hcon
              rcases hU' with hU2 | ⟨hlat0, hfail⟩
              · have hnone : findAsset db.assets h'.assetId = none := by
                  rw [hA, htid]; exact hU2
                rw [hnone] at hfa
                exact Option.noConfusion hfa
              · have hsome : latestPriceForAsset (pollOneAsset E now db a.id b).2 tid b =
                    some l := by
                  rw [← htid, ← haid]; exact hlat2
                rw [hlat0] at hsome
                exact Option.noConfusion hsome
          | none =>
            exact ih (pollOneAsset E now db a.id b).2 total items hA' hU' hids' hitems
        | false =>
          exact ih (pollOneAsset E now db a.id b).2 total items hA' hU' hids' hitems

theorem latestPriceForAsset_none_filter {db : DB} {aid : Nat} {b : String}
    (h : latestPriceForAsset db aid b = none) :
    db.prices.filter (fun p => decide (p.assetId = aid ∧ p.baseCcy = b)) = [] := by
  unfold latestPriceForAsset at h
  dsimp only at h
  cases hfl : db.prices.filter (fun p => decide (p.assetId = aid ∧ p.baseCcy = b)) with
  | nil => rfl
  | cons p ps =>
    rw [hfl] at h
    exfalso
    have hsome : ∀ (l : List Price) (acc : Price),
        (l.foldl
          (fun best q =>
            match best with
            | none => some q
            | some r => if q.ts > r.ts then some q else some r)
          (some acc)).isSome = true := by
      intro l
      induction l with
      | nil => intro acc; rfl
      | cons q qs ihq =>
        intro acc
        rw [List.foldl_cons]
        dsimp only
        by_cases hq : q.ts > acc.ts
        · rw [if_pos hq]; exact ihq q
        · rw [if_neg hq]; exact ihq acc
    rw [List.foldl_cons] at h
    dsimp only at h
    obtain ⟨r, hr⟩ := Option.isSome_iff_exists.mp (hsome ps p)
    rw [hr] at h
    simp at h

theorem latestPriceForAsset_append_self (db : DB) (row : Price) (b : String)
    (hb : row.baseCcy = b)
    (hnone : latestPriceForAsset db row.assetId b = none) :
    latestPriceForAsset { db with prices := db.prices ++ [row] } row.assetId b =
      some row.price := by
  have hfl := latestPriceForAsset_none_filter hnone
  unfold latestPriceForAsset
  dsimp only
  rw [List.filter_append, hfl, List.nil_append]
  have hrow : [row].filter (fun p => decide (p.assetId = row.assetId ∧ p.baseCcy = b)) =
      [row] := by
    simp [hb]
  rw [hrow]
  rfl

theorem overviewLoop_resolves (E : FetchEnv) (now : Nat) (b : String) (db0 : DB) :
    ∀ (hs : List Holding) (db : DB) (total : ℚ) (items : List Item),
      db.assets = db0.assets →
      (∀ aid, latestPriceForAsset db aid b = latestPriceForAsset db0 aid b
        ∨ (latestPriceForAsset db0 aid b = none
           ∧ latestPriceForAsset db aid b = effectiveLatest E db0 b aid)) →
      (∀ h' ∈ hs, (resolvedLine E db0 b h').isSome) →
      (overviewLoop E now b db total items hs).2.1 =
          total + ((hs.filterMap (resolvedLine E db0 b)).map Item.value).sum
      ∧ (overviewLoop E now b db total items hs).2.2 =
          items ++ hs.filterMap (resolvedLine E db0 b) := by
  intro hs
  induction hs with
  | nil =>
    intro db total items hA hInv hres
    constructor
    · simp [overviewLoop]
    · simp [overviewLoop]
  | cons h' hs' ih =>
    intro db total items hA hInv hres
    have hres' : ∀ h'' ∈ hs', (resolvedLine E db0 b h'').isSome :=
      fun h'' hm => hres h'' (List.mem_cons_of_mem h' hm)
    have hh := hres h' (List.mem_cons_self h' hs')
    cases hfa0 : findAsset db0.assets h'.assetId with
    | none =>
      unfold resolvedLine at hh
      simp only [hfa0] at hh
      simp at hh
    | some a =>
      have haid : a.id = h'.assetId := findAsset_id hfa0
      have hfa : findAsset db.assets h'.assetId = some a := by
        rw [hA]; exact hfa0
      cases heff : effectiveLatest E db0 b a.id with
      | none =>
        unfold resolvedLine at hh
        simp only [hfa0, heff] at hh
        simp at hh
      | some l =>
        have hline : resolvedLine E db0 b h' = some (mkItem a h' l (h'.qty * l)) := by
          unfold resolvedLine
          simp only [hfa0, heff]
        simp only [overviewLoop]
        rw [hfa]
        dsimp only
        rcases hInv a.id with hsame | ⟨h0none, hcur⟩
        · cases hl0 : latestPriceForAsset db0 a.id b with
          | some l0 =>
            have heq0 : effectiveLatest E db0 b a.id = some l0 := by
              unfold effectiveLatest
              simp only [hl0]
            have hll : l = l0 := by
              rw [heff] at heq0
              exact Option.some.inj heq0
            have hcur0 : latestPriceForAsset db a.id b = some l := by
              rw [hsame, hl0, hll]
            rw [hcur0]
            dsimp only
            obtain ⟨ih1, ih2⟩ := ih db (total + h'.qty * l)
              (items ++ [mkItem a h' l (h'.qty * l)]) hA hInv hres'
            constructor
            · rw [ih1]
              simp [hline, List.filterMap_cons, mkItem, add_assoc]
            · rw [ih2]
              simp [hline, List.filterMap_cons]
          | none =>
            have heq0 := heff
            unfold effectiveLatest at heq0
            simp only [hl0] at heq0
            simp only [haid, hfa0] at heq0
            cases hfe : fetchSpotBySource E a.type a.source a.sourceRef b a.nativeCcy with
            | error e =>
              simp only [hfe] at heq0
              exact Option.noConfusion heq0
            | ok pr =>
              obtain ⟨px, src⟩ := pr
              simp only [hfe] at heq0
              have hpx : px = l := Option.some.inj heq0
              have hline2 : resolvedLine E db0 b h' =
                  some (mkItem a h' px (h'.qty * px)) := by
                rw [hpx]; exact hline
              have hcur0 : latestPriceForAsset db a.id b = none := by
                rw [hsame]; exact hl0
              rw [hcur0]
              dsimp only
              have hfa2 : findAsset db.assets a.id = some a := by
                rw [haid]; exact hfa
              have hpoll : pollOneAsset E now db a.id b =
                  (true, { db with prices := db.prices ++ [⟨a.id, now, px, src, b⟩] }) := by
                unfold pollOneAsset
                rw [hfa2]
                dsimp only
                rw [hfe]
              rw [hpoll]
              dsimp only
              have hlat2 : latestPriceForAsset
                  { db with prices := db.prices ++ [⟨a.id, now, px, src, b⟩] } a.id b =
                  some px :=
                latestPriceForAsset_append_self db ⟨a.id, now, px, src, b⟩ b rfl hcur0
              rw [hlat2]
              dsimp only
              have hA2 : ({ db with prices := db.prices ++ [⟨a.id, now, px, src, b⟩] } :
                  DB).assets = db0.assets := hA
              have hInv2 : ∀ aid,
                  latestPriceForAsset
                      { db with prices := db.prices ++ [⟨a.id, now, px, src, b⟩] } aid b =
                    latestPriceForAsset db0 aid b
                  ∨ (latestPriceForAsset db0 aid b = none
                     ∧ latestPriceForAsset
                          { db with prices := db.prices ++ [⟨a.id, now, px, src, b⟩] } aid b =
                        effectiveLatest E db0 b aid) := by
                intro aid
                by_cases hx : aid = a.id
                · rw [hx]
                  right
                  refine ⟨hl0, ?_⟩
                  rw [hlat2, heff, hpx]
                · have hne2 : (⟨a.id, now, px, src, b⟩ : Price).assetId ≠ aid := by
                    intro hc
                    exact hx hc.symm
                  rw [latestPriceForAsset_append_ne db ⟨a.id, now, px, src, b⟩ aid b hne2]
                  exact hInv aid
              obtain ⟨ih1, ih2⟩ := ih
                { db with prices := db.prices ++ [⟨a.id, now, px, src, b⟩] }
                (total + h'.qty * px) (items ++ [mkItem a h' px (h'.qty * px)])
                hA2 hInv2 hres'
              constructor
              · rw [ih1]
                simp [hline2, List.filterMap_cons, mkItem, add_assoc]
              · rw [ih2]
                simp [hline2, List.filterMap_cons]
        · have hcur0 : latestPriceForAsset db a.id b = some l := by
            rw [hcur, heff]
          rw [hcur0]
          dsimp only
          obtain ⟨ih1, ih2⟩ := ih db (total + h'.qty * l)
            (items ++ [mkItem a h' l (h'.qty * l)]) hA hInv hres'
          constructor
          · rw [ih1]
            simp [hline, List.filterMap_cons, mkItem, add_assoc]
          · rw [ih2]
            simp [hline, List.filterMap_cons]

theorem resolvedLine_value {E : FetchEnv} {db : DB} {b : String} {h' : Holding}
    {it : Item} (hr : resolvedLine E db b h' = some it) :
    it.value = it.qty * it.lastPx := by
  unfold resolvedLine at hr
  cases hfa : findAsset db.assets h'.assetId with
  | none =>
    simp only [hfa] at hr
    exact Option.noConfusion hr
  | some a =>
    simp only [hfa] at hr
    cases heff : effectiveLatest E db b a.id with
    | none =>
      simp only [heff] at hr
      exact Option.noConfusion hr
    | some l =>
      simp only [heff] at hr
      have heq : it = mkItem a h' l (h'.qty * l) := (Option.some.inj hr).symm
      rw [heq]
      rfl

theorem portfolioOverview_total_sum (E : FetchEnv) (now : Nat) (db : DB)
    (baseCcy : Option String) (userId : Option Nat) :
    (portfolioOverview E now db baseCcy userId).total =
      (((portfolioOverview E now db baseCcy userId).items).map Item.value).sum := by
  unfold portfolioOverview
  dsimp only
  by_cases he : (scopedHoldings db userId).isEmpty
  · rw [if_pos he]
    simp
  · rw [if_neg he]
    dsimp only
    have h1 := overviewLoop_total E now (strUpper (baseCcy.getD BASE_CCY))
      (scopedHoldings db userId) db 0 [] (by simp)
    rw [sortDescItems_sum]
    exact h1

/-- C5: the aggregator silently excludes unpriceable lines: the returned
total always equals the sum of the returned line values (so excluded lines
contribute nothing); any holding in scope whose asset is unresolvable — no
asset row, or no stored price and a failing on-demand fetch — contributes no
line (assuming the holding ids are unique, as for a primary key); and on the
concrete three-holding database `db0` where only XMR is unpriceable the
overview returns exactly 2 lines with total 200 + 150.  The aggregation is a
total function: no error propagates to the caller. -/
theorem overview_silently_excludes_unpriced :
    (∀ E now db baseCcy userId,
      (portfolioOverview E now db baseCcy userId).total =
        (((portfolioOverview E now db baseCcy userId).items).map Item.value).sum)
    ∧ (∀ E now db baseCcy userId (h : Holding),
      h ∈ scopedHoldings db userId →
      ((scopedHoldings db userId).map Holding.id).Nodup →
      Unresolvable E db.assets (strUpper (baseCcy.getD BASE_CCY)) db h.assetId →
      ∀ it ∈ (portfolioOverview E now db baseCcy userId).items,
        it.holdingId ≠ h.id)
    ∧ ((portfolioOverview E0 20 db0 (some "GBP") none).items.length = 2
       ∧ (portfolioOverview E0 20 db0 (some "GBP") none).total = 200 + 150) := by
  refine ⟨fun E now db baseCcy userId => portfolioOverview_total_sum E now db baseCcy userId,
    ?_, by decide⟩
  intro E now db baseCcy userId h hmem hnodup hU it hit
  unfold portfolioOverview at hit
  dsimp only at hit
  by_cases he : (scopedHoldings db userId).isEmpty
  · rw [if_pos he] at hit
    simp at hit
  · rw [if_neg he] at hit
    dsimp only at hit
    have hmem2 := sortDescItems_mem _ it hit
    refine overviewLoop_excludes E now (strUpper (baseCcy.getD BASE_CCY)) h.assetId h.id
      db.assets (scopedHoldings db userId) db 0 [] rfl hU ?_ ?_ it hmem2
    · intro h'' hm hidq
      have heq : h'' = h := List.inj_on_of_nodup_map hnodup hm hmem hidq
      rw [heq]
    · intro it2 hit2
      simp at hit2

/-- Witness for `overview_silently_excludes_unpriced`: in `db0` no returned
line belongs to the unpriceable XMR holding (id 3). -/
theorem overview_silently_excludes_unpriced_witness :
    ((portfolioOverview E0 20 db0 (some "GBP") none).items.all
      (fun it => it.holdingId != 3)) = true := by
  have hU : Unresolvable E0 db0.assets
      (strUpper (((some "GBP") : Option String).getD BASE_CCY)) db0 (3 : Nat) := by
    refine Or.inr ⟨by decide, ?_⟩
    intro a ha
    have hfa : findAsset db0.assets 3 =
        some ⟨3, "XMR", "crypto", "coingecko", "monero", none⟩ := by decide
    rw [hfa] at ha
    have heq : a = ⟨3, "XMR", "crypto", "coingecko", "monero", none⟩ :=
      (Option.some.inj ha).symm
    rw [heq]
    exact ⟨Err.priceUnavailable "monero" "monero"
      (strUpper (((some "GBP") : Option String).getD BASE_CCY)), by decide⟩
  have hx := overview_silently_excludes_unpriced.2.1 E0 20 db0 (some "GBP") none
    ⟨3, "Demo", 3, 5, 1⟩ (by decide) (by decide) hU
  rw [List.all_eq_true]
  intro it hit
  have hne := hx it hit
  simpa [bne_iff_ne] using hne

/-- C8: for every set of in-scope holdings whose prices resolve — from a
stored `PricePoint`, or via the successful single on-demand
resolve-and-store when none is stored — the overview lines are exactly the
stable descending-by-value sort of the per-holding lines valued at quantity
times the asset's latest stored price (for the on-demand path, the fetched
price that is stored and becomes the latest): each line's value is quantity
times its last price, the total equals the sum of the returned line values,
the returned values are pairwise descending, and for every value the
sub-sequence of lines carrying that value equals the one in original
retrieval order (tie-break stability). -/
theorem overview_lines_values_sorted :
    ∀ E now db baseCcy userId,
      (∀ h' ∈ scopedHoldings db userId,
        (resolvedLine E db (strUpper (baseCcy.getD BASE_CCY)) h').isSome) →
      ((portfolioOverview E now db baseCcy userId).items =
        sortDescItems ((scopedHoldings db userId).filterMap
          (resolvedLine E db (strUpper (baseCcy.getD BASE_CCY)))))
      ∧ (∀ it ∈ (portfolioOverview E now db baseCcy userId).items,
          it.value = it.qty * it.lastPx)
      ∧ ((portfolioOverview E now db baseCcy userId).total =
          (((portfolioOverview E now db baseCcy userId).items).map Item.value).sum)
      ∧ ((portfolioOverview E now db baseCcy userId).items).Pairwise descOrder
      ∧ (∀ v : ℚ, ((portfolioOverview E now db baseCcy userId).items).filter
            (fun it => decide (it.value = v)) =
          ((scopedHoldings db userId).filterMap
            (resolvedLine E db (strUpper (baseCcy.getD BASE_CCY)))).filter
            (fun it => decide (it.value = v))) := by
  intro E now db baseCcy userId hres
  have hitems : (portfolioOverview E now db baseCcy userId).items =
      sortDescItems ((scopedHoldings db userId).filterMap
        (resolvedLine E db (strUpper (baseCcy.getD BASE_CCY)))) := by
    unfold portfolioOverview
    dsimp only
    by_cases he : (scopedHoldings db userId).isEmpty
    · rw [if_pos he]
      have hnil : scopedHoldings db userId = [] := by
        simpa using he
      rw [hnil]
      rfl
    · rw [if_neg he]
      dsimp only
      have hloop := (overviewLoop_resolves E now (strUpper (baseCcy.getD BASE_CCY)) db
        (scopedHoldings db userId) db 0 [] rfl (fun aid => Or.inl rfl) hres).2
      rw [hloop]
      simp
  refine ⟨hitems, ?_, portfolioOverview_total_sum E now db baseCcy userId, ?_, ?_⟩
  · intro it hit
    rw [hitems] at hit
    have h2 := sortDescItems_mem _ it hit
    obtain ⟨h', hm, hr⟩ := List.mem_filterMap.mp h2
    exact resolvedLine_value hr
  · rw [hitems]
    exact sortDescItems_sorted _
  · intro v
    rw [hitems, sortDescItems_filter]

/-- Witness for `overview_lines_values_sorted` on `db0` with environment
`E8`: BTC and AAPL resolve from stored prices, XMR resolves through the
successful on-demand fetch, and the AAPL and XMR lines tie at value 150. -/
theorem overview_lines_values_sorted_witness :
    (portfolioOverview E8 20 db0 (some "GBP") none).items =
      sortDescItems ((scopedHoldings db0 none).filterMap
        (resolvedLine E8 db0 (strUpper (((some "GBP") : Option String).getD BASE_CCY)))) :=
  (overview_lines_values_sorted E8 20 db0 (some "GBP") none (by decide)).1

end PortfolioManager
